import Mathlib

/-!
Verification of the Polkamarkets prediction-market CLI (`src/index.ts`).

The tool parses a command line into one of three actions (`buy`, `sell`,
`claimWinnings`), checks the signer's token balance and ERC20 allowance where
required, estimates gas, and submits the transaction.  We embed the
command-line parser, the allowance checker, and the three executors as pure
Lean functions over a stub RPC environment (`Env`) that fixes the answer of
every chain read; each executor additionally records the chain interactions it
performs as a list of `Event`s, in program order.

The decimal formatting/parsing pair (`formatTokenAmount` / `parseTokenAmount`)
delegates in the source to `ethers.formatUnits` / `ethers.parseUnits`, whose
code is not part of this repository; those two are modelled from the spec (see
their doc comments) as exact decimal fixed-point conversions.
-/

namespace Polkamarkets

/-- Numeric value of a decimal digit character (character code minus 48). -/
def digitVal (c : Char) : Nat := c.toNat - 48

/-- Value denoted by a big-endian string of decimal digit characters, as the
JS `BigInt` constructor computes it (left fold, base 10). -/
def charsVal (l : List Char) : Nat := l.foldl (fun acc c => acc * 10 + digitVal c) 0

/-- Little-endian decimal digits of `n`, with explicit fuel; `fuel ≥ n`
produces all digits. -/
def natDigitsRev (fuel : Nat) (n : Nat) : List Nat :=
  match fuel with
  | 0 => []
  | f + 1 => if n = 0 then [] else n % 10 :: natDigitsRev f (n / 10)

/-- Sum of a little-endian decimal digit list. -/
def ofDigitsLE : List Nat → Nat
  | [] => 0
  | d :: rest => d + 10 * ofDigitsLE rest

/-- Decimal digit characters of a natural number, most significant first,
as produced by JS `BigInt.prototype.toString` (so `0` renders as `"0"` and
there are no leading zeros). -/
def natToDigitChars (n : Nat) : List Char :=
  if n = 0 then ['0'] else ((natDigitsRev n n).map Nat.digitChar).reverse

/-- Decimal rendering of a natural number (JS `BigInt.prototype.toString`). -/
def natToStr (n : Nat) : String := String.mk (natToDigitChars n)

/-- The JS `BigInt` constructor restricted to canonical decimal numerals:
succeeds exactly on nonempty all-digit strings. -/
def decStr? (s : String) : Option Nat :=
  if s.data ≠ [] ∧ s.data.all Char.isDigit then some (charsVal s.data) else none

/-- Drop leading `'0'` characters but keep at least one character (the
whole-part trim loop of the ethers fixed-point renderer). -/
def trimLeadingZeros : List Char → List Char
  | [] => []
  | c :: rest => if c = '0' ∧ rest ≠ [] then trimLeadingZeros rest else c :: rest

/-- Drop trailing `'0'` characters (all of them). -/
def dropTrailingZeros : List Char → List Char
  | [] => []
  | c :: rest =>
    match dropTrailingZeros rest with
    | [] => if c = '0' then [] else [c]
    | d :: r => c :: d :: r

/-- Drop trailing `'0'` characters but keep at least one digit (the
fractional-part trim loop of the ethers fixed-point renderer). -/
def trimFrac (l : List Char) : List Char :=
  match dropTrailingZeros l with
  | [] => ['0']
  | d :: r => d :: r

/-- The digit string of `a` left-padded with `'0'` to at least `d + 1`
characters (the padding loop of the ethers fixed-point renderer). -/
def padded (a d : Nat) : List Char :=
  List.replicate (d + 1 - (natToDigitChars a).length) '0' ++ natToDigitChars a

/-- Magnitude part of the ethers fixed-point renderer: whole part and, when
`d > 0`, a `'.'` followed by at least one fractional digit, trailing zeros
trimmed. -/
def formatUnitsCore (a : Nat) (d : Nat) : List Char :=
  if d = 0 then natToDigitChars a
  else
    trimLeadingZeros ((padded a d).take ((padded a d).length - d))
      ++ '.' :: trimFrac ((padded a d).drop ((padded a d).length - d))

/-- Modelled from the spec: `ethers.formatUnits` (its source is not part of
this repository) — "smallest-unit integer → human decimal string,
parameterized by the discovered decimal count".  A sign followed by the
rendered magnitude. -/
def formatUnitsChars (v : Int) (d : Nat) : List Char :=
  (if v < 0 then ['-'] else []) ++ formatUnitsCore v.natAbs d

/-- Strip one optional leading `'-'` sign, reporting whether it was present. -/
def parseSign (l : List Char) : Bool × List Char :=
  match l with
  | [] => (false, [])
  | c :: rest => if c = '-' then (true, rest) else (false, c :: rest)

/-- Split off the fractional digits after one `'.'`; an empty list when the
string has no dot, an error on any other remaining character. -/
def parseFrac? (rest : List Char) : Option (List Char) :=
  match rest with
  | [] => some []
  | c :: r => if c = '.' then (if r.all Char.isDigit then some r else none) else none

/-- Unsigned part of the ethers fixed-point parser: whole digits, optional
`'.'` and fractional digits, at least one digit overall; fractional digits
are padded to `d` and any beyond the `d`-th must be zero. -/
def parseBody (l : List Char) (d : Nat) : Option Nat :=
  (parseFrac? (l.dropWhile Char.isDigit)).bind (fun frac =>
    if (l.takeWhile Char.isDigit).length + frac.length = 0 then none
    else
      if ((frac ++ List.replicate (d - frac.length) '0').drop d).all (fun c => c = '0') then
        some (charsVal (l.takeWhile Char.isDigit
          ++ (frac ++ List.replicate (d - frac.length) '0').take d))
      else none)

/-- Modelled from the spec: `ethers.parseUnits` (its source is not part of
this repository) — "human decimal string → smallest-unit integer, ...
malformed numeric-string input ... is an error condition surfaced to the
caller".  An optional sign followed by the unsigned body. -/
def parseUnitsChars (l : List Char) (d : Nat) : Option Int :=
  (parseBody (parseSign l).2 d).map
    (fun n : Nat => if (parseSign l).1 then -(n : Int) else (n : Int))

/-- `formatTokenAmount` from `src/index.ts`: format a base-unit amount using
the token's decimals (delegates to `ethers.formatUnits`). -/
def formatTokenAmount (amount : Int) (decimals : Nat) : String :=
  String.mk (formatUnitsChars amount decimals)

/-- `parseTokenAmount` from `src/index.ts`: parse a human decimal string into
base units using the token's decimals (delegates to `ethers.parseUnits`). -/
def parseTokenAmount (amount : String) (decimals : Nat) : Option Int :=
  parseUnitsChars amount.data decimals

/-- `ethers.MaxUint256`: the maximum unsigned 256-bit value. -/
def MaxUint256 : Nat := 2 ^ 256 - 1

/-- The `ParsedArguments` record of `src/index.ts`: the action, the private
key, and the per-action optional positional parameters. -/
structure ParsedArguments where
  action : String
  privateKey : String
  marketId : Option String := none
  outcomeId : Option String := none
  value : Option String := none
  minShares : Option String := none
  maxShares : Option String := none
deriving Repr, DecidableEq

/-- JS `x || dflt` on an optional string: the default is taken when the value
is absent (`undefined`) or falsy (the empty string). -/
def jsOr (x : Option String) (dflt : String) : String :=
  match x with
  | none => dflt
  | some s => if s = "" then dflt else s

/-- `parseArguments` from `src/index.ts`, over `process.argv.slice(2)`.
Every `process.exit(1)` branch (usage text, arity error, unknown action)
becomes `.error 1`. -/
def parseArguments (args : List String) : Except Nat ParsedArguments :=
  if args.length < 2 then .error 1
  else
    let action := (args[0]?).getD ""
    let privateKey := (args[1]?).getD ""
    if action = "buy" then
      if args.length < 5 then .error 1
      else .ok { action := action, privateKey := privateKey,
                 marketId := args[2]?, outcomeId := args[3]?, value := args[4]?,
                 minShares := some (jsOr args[5]? "0") }
    else if action = "sell" then
      if args.length < 5 then .error 1
      else .ok { action := action, privateKey := privateKey,
                 marketId := args[2]?, outcomeId := args[3]?, value := args[4]?,
                 maxShares := some (jsOr args[5]? (natToStr MaxUint256)) }
    else if action = "claimWinnings" then
      if args.length < 3 then .error 1
      else .ok { action := action, privateKey := privateKey, marketId := args[2]? }
    else .error 1

/-- One chain interaction performed by the tool, in program order. -/
inductive Event where
  | rpcGetEthBalance (addr : String)
  | rpcTokenMetadata
  | readAllowance (owner spender : String)
  | readBalanceOf (addr : String)
  | readUserShares (marketId user : String)
  | estimateGas (method : String) (callArgs : List String)
  | getFeeData
  | submitTx (method : String) (callArgs : List String) (gasLimit gasPrice : Nat)
  | waitConfirm
deriving Repr, DecidableEq

/-- Stub RPC environment: the answer of every chain read the tool performs.
All reads succeed with these values, except `getUserMarketShares`, which
reverts when `userShares = none` (the one failure mode a claim exercises). -/
structure Env where
  contractAddress : String
  tokenAddress : String
  ethBalance : Nat
  decimals : Nat
  symbol : String
  name : String
  balanceOf : Nat
  allowance : Nat
  approveGasEstimate : Nat
  buyGasEstimate : Nat
  sellGasEstimate : Nat
  claimGasEstimate : Nat
  gasPrice : Nat
  userShares : Option (Nat × List Nat)
deriving Repr, DecidableEq

/-- Result of `checkAndApprove`: the chain interactions performed, and whether
the sufficient-allowance message was reported. -/
structure ApproveResult where
  events : List Event
  reportedSufficient : Bool
deriving Repr, DecidableEq

/-- `checkAndApprove` from `src/index.ts`: read the current allowance; if it
is below the required amount, estimate gas for `approve(spender, amount)`,
read fee data, submit the approval with gas limit `estimate * 120 / 100`
(BigInt division) and the observed gas price, and await confirmation;
otherwise report that a sufficient allowance already exists. -/
def checkAndApprove (env : Env) (spenderAddress : String) (amount : Nat)
    (userAddress : String) : ApproveResult :=
  if env.allowance < amount then
    { events := [Event.readAllowance userAddress spenderAddress,
                 Event.estimateGas "approve" [spenderAddress, natToStr amount],
                 Event.getFeeData,
                 Event.submitTx "approve" [spenderAddress, natToStr amount]
                   (env.approveGasEstimate * 120 / 100) env.gasPrice,
                 Event.waitConfirm],
      reportedSufficient := false }
  else
    { events := [Event.readAllowance userAddress spenderAddress],
      reportedSufficient := true }

/-- Result of one executor: the chain interactions performed and, when the
executor threw, the error message. -/
structure ExecResult where
  events : List Event
  error : Option String
deriving Repr, DecidableEq

/-- The insufficient-balance error message thrown by `executeBuy`. -/
def insufficientMsg (symbol : String) (required available decimals : Nat) : String :=
  "Insufficient " ++ symbol ++ " balance. Required: "
    ++ formatTokenAmount required decimals ++ ", Available: "
    ++ formatTokenAmount available decimals

/-- `executeBuy` from `src/index.ts`: convert `value` with `BigInt`, read the
signer's token balance, throw when it is below the value, otherwise run the
allowance check/approval, estimate gas for `buy(marketId, outcomeId,
minShares, value)`, read fee data, submit with the 20%-buffered gas limit,
and await confirmation. -/
def executeBuy (env : Env) (marketId outcomeId value minShares userAddress : String) :
    ExecResult :=
  match decStr? value with
  | none => { events := [], error := some "Cannot convert value to a BigInt" }
  | some v =>
    if env.balanceOf < v then
      { events := [Event.readBalanceOf userAddress],
        error := some (insufficientMsg env.symbol v env.balanceOf env.decimals) }
    else
      { events := [Event.readBalanceOf userAddress]
          ++ (checkAndApprove env env.contractAddress v userAddress).events
          ++ [Event.estimateGas "buy" [marketId, outcomeId, minShares, value],
              Event.getFeeData,
              Event.submitTx "buy" [marketId, outcomeId, minShares, value]
                (env.buyGasEstimate * 120 / 100) env.gasPrice,
              Event.waitConfirm],
        error := none }

/-- `executeSell` from `src/index.ts`: convert `value` with `BigInt` (for the
log line), estimate gas for `sell(marketId, outcomeId, value, maxShares)`,
read fee data, submit with the 20%-buffered gas limit, and await
confirmation.  No balance or allowance check is performed. -/
def executeSell (env : Env) (marketId outcomeId value maxShares : String) : ExecResult :=
  match decStr? value with
  | none => { events := [], error := some "Cannot convert value to a BigInt" }
  | some _ =>
    { events := [Event.estimateGas "sell" [marketId, outcomeId, value, maxShares],
                 Event.getFeeData,
                 Event.submitTx "sell" [marketId, outcomeId, value, maxShares]
                   (env.sellGasEstimate * 120 / 100) env.gasPrice,
                 Event.waitConfirm],
      error := none }

/-- `executeClaimWinnings` from `src/index.ts`: estimate gas for
`claimWinnings(marketId)`, read fee data, submit with the 20%-buffered gas
limit, and await confirmation. -/
def executeClaimWinnings (env : Env) (marketId : String) : ExecResult :=
  { events := [Event.estimateGas "claimWinnings" [marketId],
               Event.getFeeData,
               Event.submitTx "claimWinnings" [marketId]
                 (env.claimGasEstimate * 120 / 100) env.gasPrice,
               Event.waitConfirm],
    error := none }

/-- `getUserShares` from `src/index.ts`: query `getUserMarketShares`; a query
failure is caught and logged and `null` is returned instead of throwing. -/
def getUserShares (env : Env) (marketId userAddress : String) :
    Option (Nat × List Nat) × List Event :=
  (env.userShares, [Event.readUserShares marketId userAddress])

/-- The signer address the wallet derives from a private key (kept abstract:
the claims never depend on the derivation). -/
def addrOf (privateKey : String) : String := "addr:" ++ privateKey

/-- The action-dispatch `switch` of `main` in `src/index.ts`. -/
def runAction (env : Env) (a : ParsedArguments) (user : String) : ExecResult :=
  if a.action = "buy" then
    executeBuy env (a.marketId.getD "") (a.outcomeId.getD "") (a.value.getD "")
      (a.minShares.getD "") user
  else if a.action = "sell" then
    executeSell env (a.marketId.getD "") (a.outcomeId.getD "") (a.value.getD "")
      (a.maxShares.getD "")
  else if a.action = "claimWinnings" then
    executeClaimWinnings env (a.marketId.getD "")
  else { events := [], error := some ("Unknown action: " ++ a.action) }

/-- Outcome of one run of the tool: chain interactions, exit code, and whether
the final success message was printed. -/
structure RunResult where
  events : List Event
  exitCode : Nat
  success : Bool
deriving Repr, DecidableEq

/-- The position read `main` performs before and after the action: done only when a
market id was parsed; its result is only logged. -/
def sharesEvents (env : Env) (marketId? : Option String) (user : String) : List Event :=
  match marketId? with
  | some m => (getUserShares env m user).2
  | none => []

/-- `main` from `src/index.ts`: parse the arguments (each parser exit ends the
process before any network use), connect and report the signer's ETH balance,
read the token metadata, read the user's position, dispatch the action, read
the position again, and print the success message; any thrown error prints a
failure message and exits with code 1. -/
def main (env : Env) (argv : List String) : RunResult :=
  match parseArguments argv with
  | .error c => { events := [], exitCode := c, success := false }
  | .ok args =>
    let user := addrOf args.privateKey
    let pre := [Event.rpcGetEthBalance user, Event.rpcTokenMetadata]
      ++ sharesEvents env args.marketId user
    let act := runAction env args user
    match act.error with
    | some _ => { events := pre ++ act.events, exitCode := 1, success := false }
    | none =>
      { events := pre ++ act.events ++ sharesEvents env args.marketId user,
        exitCode := 0, success := true }

/-! ### Lemmas about the decimal conversions -/

lemma digitVal_digitChar {d : Nat} (h : d < 10) : digitVal (Nat.digitChar d) = d := by
  interval_cases d <;> decide

lemma isDigit_digitChar {d : Nat} (h : d < 10) : (Nat.digitChar d).isDigit = true := by
  interval_cases d <;> decide

lemma foldlVal : ∀ (B : List Char) (acc : Nat),
    B.foldl (fun a c => a * 10 + digitVal c) acc = acc * 10 ^ B.length + charsVal B := by
  intro B
  induction B with
  | nil => intro acc; simp [charsVal]
  | cons c B ih =>
    intro acc
    simp only [List.foldl_cons, List.length_cons, charsVal]
    rw [ih (acc * 10 + digitVal c), ih (0 * 10 + digitVal c)]
    ring

lemma charsVal_append (A B : List Char) :
    charsVal (A ++ B) = charsVal A * 10 ^ B.length + charsVal B := by
  have h : charsVal (A ++ B) = B.foldl (fun a c => a * 10 + digitVal c) (charsVal A) := by
    simp only [charsVal, List.foldl_append]
  rw [h, foldlVal]

lemma charsVal_zero_cons (t : List Char) : charsVal ('0' :: t) = charsVal t := by
  have h0 : digitVal '0' = 0 := by decide
  simp only [charsVal, List.foldl_cons, h0, Nat.mul_zero, Nat.zero_mul, Nat.add_zero]

lemma charsVal_replicate_zero_append : ∀ (m : Nat) (l : List Char),
    charsVal (List.replicate m '0' ++ l) = charsVal l := by
  intro m
  induction m with
  | zero => intro l; rfl
  | succ m ih =>
    intro l
    rw [List.replicate_succ, List.cons_append, charsVal_zero_cons, ih]

lemma natDigitsRev_lt : ∀ (fuel n : Nat), ∀ d ∈ natDigitsRev fuel n, d < 10 := by
  intro fuel
  induction fuel with
  | zero => intro n d hd; simp [natDigitsRev] at hd
  | succ f ih =>
    intro n d hd
    by_cases h : n = 0
    · simp [natDigitsRev, h] at hd
    · simp only [natDigitsRev, if_neg h, List.mem_cons] at hd
      rcases hd with h1 | h2
      · subst h1; exact Nat.mod_lt _ (by norm_num)
      · exact ih _ _ h2

lemma ofDigitsLE_natDigitsRev : ∀ (fuel n : Nat), n ≤ fuel →
    ofDigitsLE (natDigitsRev fuel n) = n := by
  intro fuel
  induction fuel with
  | zero => intro n h; interval_cases n; rfl
  | succ f ih =>
    intro n h
    by_cases h0 : n = 0
    · simp [natDigitsRev, h0, ofDigitsLE]
    · have hdiv : n / 10 ≤ f := by
        have := Nat.div_lt_self (Nat.pos_of_ne_zero h0) (by norm_num : 1 < 10)
        omega
      simp only [natDigitsRev, if_neg h0, ofDigitsLE, ih _ hdiv]
      omega

lemma natDigitsRev_ne_nil {n : Nat} (h : n ≠ 0) : natDigitsRev n n ≠ [] := by
  obtain ⟨k, rfl⟩ := Nat.exists_eq_succ_of_ne_zero h
  simp [natDigitsRev]

lemma charsVal_revMap : ∀ (L : List Nat), (∀ d ∈ L, d < 10) →
    charsVal ((L.map Nat.digitChar).reverse) = ofDigitsLE L := by
  intro L
  induction L with
  | nil => intro _; rfl
  | cons d L ih =>
    intro h
    have hd : d < 10 := h d (List.mem_cons_self _ _)
    have h2 : ∀ x ∈ L, x < 10 := fun x hx => h x (List.mem_cons_of_mem _ hx)
    simp only [List.map_cons, List.reverse_cons]
    rw [charsVal_append, ih h2]
    have h1 : charsVal [Nat.digitChar d] = digitVal (Nat.digitChar d) := by
      simp [charsVal]
    simp only [List.length_cons, List.length_nil, h1, digitVal_digitChar hd, ofDigitsLE]
    ring

lemma charsVal_natToDigitChars (n : Nat) : charsVal (natToDigitChars n) = n := by
  by_cases h : n = 0
  · subst h; decide
  · simp only [natToDigitChars, if_neg h]
    rw [charsVal_revMap _ (natDigitsRev_lt n n), ofDigitsLE_natDigitsRev n n le_rfl]

lemma natToDigitChars_digits (n : Nat) : ∀ c ∈ natToDigitChars n, c.isDigit = true := by
  by_cases h : n = 0
  · subst h
    intro c hc
    simp [natToDigitChars] at hc
    subst hc; decide
  · intro c hc
    simp only [natToDigitChars, if_neg h, List.mem_reverse, List.mem_map] at hc
    obtain ⟨d, hd, rfl⟩ := hc
    exact isDigit_digitChar (natDigitsRev_lt n n d hd)

lemma natToDigitChars_ne_nil (n : Nat) : natToDigitChars n ≠ [] := by
  by_cases h : n = 0
  · subst h; simp [natToDigitChars]
  · have h2 := natDigitsRev_ne_nil h
    simp only [natToDigitChars, if_neg h]
    simpa using h2

lemma decStr?_natToStr (n : Nat) : decStr? (natToStr n) = some n := by
  have hne := natToDigitChars_ne_nil n
  have hdig := natToDigitChars_digits n
  have hcond : (natToStr n).data ≠ [] ∧ (natToStr n).data.all Char.isDigit := by
    refine ⟨hne, ?_⟩
    rw [List.all_eq_true]
    exact fun c hc => hdig c hc
  simp only [decStr?, if_pos hcond]
  rw [show (natToStr n).data = natToDigitChars n from rfl, charsVal_natToDigitChars]

lemma trimLeadingZeros_charsVal : ∀ l : List Char,
    charsVal (trimLeadingZeros l) = charsVal l := by
  intro l
  induction l with
  | nil => rfl
  | cons c rest ih =>
    by_cases h : c = '0' ∧ rest ≠ []
    · rw [trimLeadingZeros, if_pos h, ih, h.1, charsVal_zero_cons]
    · rw [trimLeadingZeros, if_neg h]

lemma trimLeadingZeros_ne_nil : ∀ l : List Char, l ≠ [] → trimLeadingZeros l ≠ [] := by
  intro l
  induction l with
  | nil => intro h; exact absurd rfl h
  | cons c rest ih =>
    intro _
    by_cases h : c = '0' ∧ rest ≠ []
    · rw [trimLeadingZeros, if_pos h]; exact ih h.2
    · rw [trimLeadingZeros, if_neg h]; exact List.cons_ne_nil c rest

lemma trimLeadingZeros_mem : ∀ l : List Char, ∀ c ∈ trimLeadingZeros l, c ∈ l := by
  intro l
  induction l with
  | nil => intro c hc; simp [trimLeadingZeros] at hc
  | cons c rest ih =>
    intro x hx
    by_cases h : c = '0' ∧ rest ≠ []
    · rw [trimLeadingZeros, if_pos h] at hx
      exact List.mem_cons_of_mem _ (ih x hx)
    · rw [trimLeadingZeros, if_neg h] at hx
      exact hx

lemma dropTrailingZeros_pad : ∀ l : List Char,
    dropTrailingZeros l ++ List.replicate (l.length - (dropTrailingZeros l).length) '0' = l := by
  intro l
  induction l with
  | nil => rfl
  | cons c rest ih =>
    cases hdtz : dropTrailingZeros rest with
    | nil =>
      rw [hdtz] at ih
      simp only [List.nil_append, List.length_nil, Nat.sub_zero] at ih
      by_cases hc : c = '0'
      · subst hc
        have h1 : dropTrailingZeros ('0' :: rest) = [] := by
          simp [dropTrailingZeros, hdtz]
        rw [h1]
        simp only [List.nil_append, List.length_nil, List.length_cons, Nat.sub_zero]
        rw [List.replicate_succ, ih]
      · have h1 : dropTrailingZeros (c :: rest) = [c] := by
          simp [dropTrailingZeros, hdtz, hc]
        rw [h1]
        simp only [List.length_cons, List.length_nil, List.singleton_append]
        rw [show rest.length + 1 - (0 + 1) = rest.length from by omega]
        rw [ih]
    | cons d r =>
      rw [hdtz] at ih
      simp only [List.length_cons] at ih
      have h1 : dropTrailingZeros (c :: rest) = c :: d :: r := by
        simp [dropTrailingZeros, hdtz]
      rw [h1]
      simp only [List.length_cons, List.cons_append]
      rw [show rest.length + 1 - (r.length + 1 + 1) = rest.length - (r.length + 1) from by omega]
      congr 1

lemma dropTrailingZeros_length (l : List Char) :
    (dropTrailingZeros l).length ≤ l.length := by
  conv_rhs => rw [← dropTrailingZeros_pad l]
  rw [List.length_append]
  exact Nat.le_add_right _ _

lemma dropTrailingZeros_mem (l : List Char) : ∀ c ∈ dropTrailingZeros l, c ∈ l := by
  intro c hc
  rw [← dropTrailingZeros_pad l]
  exact List.mem_append_left _ hc

lemma trimFrac_pad (l : List Char) (h : l ≠ []) :
    trimFrac l ++ List.replicate (l.length - (trimFrac l).length) '0' = l := by
  unfold trimFrac
  cases hdtz : dropTrailingZeros l with
  | nil =>
    have hpad := dropTrailingZeros_pad l
    rw [hdtz] at hpad
    simp only [List.nil_append, List.length_nil, Nat.sub_zero] at hpad
    have hlen : 1 ≤ l.length := List.length_pos.mpr h
    simp only [List.length_cons, List.length_nil]
    rw [List.singleton_append, ← List.replicate_succ]
    rw [show l.length - 1 + 1 = l.length from by omega]
    exact hpad
  | cons d r =>
    have hpad := dropTrailingZeros_pad l
    rw [hdtz] at hpad
    exact hpad

lemma trimFrac_ne_nil (l : List Char) : trimFrac l ≠ [] := by
  unfold trimFrac
  cases dropTrailingZeros l with
  | nil => exact List.cons_ne_nil _ _
  | cons d r => exact List.cons_ne_nil _ _

lemma trimFrac_length_le (l : List Char) (h : l ≠ []) :
    (trimFrac l).length ≤ l.length := by
  unfold trimFrac
  cases hdtz : dropTrailingZeros l with
  | nil =>
    simp only [List.length_cons, List.length_nil]
    exact List.length_pos.mpr h
  | cons d r =>
    have h2 := dropTrailingZeros_length l
    rw [hdtz] at h2
    exact h2

lemma trimFrac_digits (l : List Char) (hl : ∀ c ∈ l, c.isDigit = true) :
    ∀ c ∈ trimFrac l, c.isDigit = true := by
  intro c
  unfold trimFrac
  cases hdtz : dropTrailingZeros l with
  | nil =>
    intro hc
    simp only [List.mem_singleton] at hc
    subst hc; decide
  | cons d r =>
    intro hc
    have hmem : c ∈ dropTrailingZeros l := by rw [hdtz]; exact hc
    exact hl c (dropTrailingZeros_mem l c hmem)

lemma takeWhile_of_all {p : Char → Bool} : ∀ l : List Char, (∀ c ∈ l, p c = true) →
    l.takeWhile p = l ∧ l.dropWhile p = [] := by
  intro l
  induction l with
  | nil => intro _; exact ⟨rfl, rfl⟩
  | cons c rest ih =>
    intro h
    have hc : p c = true := h c (List.mem_cons_self _ _)
    have hr := ih (fun x hx => h x (List.mem_cons_of_mem _ hx))
    simp [List.takeWhile_cons, List.dropWhile_cons, hc, hr.1, hr.2]

lemma takeWhile_append_of_all {p : Char → Bool} : ∀ A B : List Char, (∀ c ∈ A, p c = true) →
    (A ++ B).takeWhile p = A ++ B.takeWhile p ∧ (A ++ B).dropWhile p = B.dropWhile p := by
  intro A
  induction A with
  | nil => intro B _; exact ⟨rfl, rfl⟩
  | cons c rest ih =>
    intro B h
    have hc : p c = true := h c (List.mem_cons_self _ _)
    have hr := ih B (fun x hx => h x (List.mem_cons_of_mem _ hx))
    simp [List.takeWhile_cons, List.dropWhile_cons, hc, hr.1, hr.2]

lemma mem_of_mem_take {c : Char} {l : List Char} {n : Nat} (h : c ∈ l.take n) : c ∈ l := by
  rw [← List.take_append_drop n l]
  exact List.mem_append_left _ h

lemma mem_of_mem_drop {c : Char} {l : List Char} {n : Nat} (h : c ∈ l.drop n) : c ∈ l := by
  rw [← List.take_append_drop n l]
  exact List.mem_append_right _ h

lemma padded_digits (a d : Nat) : ∀ c ∈ padded a d, c.isDigit = true := by
  intro c hc
  unfold padded at hc
  rcases List.mem_append.mp hc with h | h
  · rw [List.eq_of_mem_replicate h]; decide
  · exact natToDigitChars_digits a c h

lemma padded_length (a d : Nat) : d + 1 ≤ (padded a d).length := by
  unfold padded
  rw [List.length_append, List.length_replicate]
  have := List.length_pos.mpr (natToDigitChars_ne_nil a)
  omega

lemma charsVal_padded (a d : Nat) : charsVal (padded a d) = a := by
  unfold padded
  rw [charsVal_replicate_zero_append, charsVal_natToDigitChars]

lemma charsVal_take_drop (p : List Char) (k : Nat) :
    charsVal (p.take k) * 10 ^ (p.drop k).length + charsVal (p.drop k) = charsVal p := by
  conv_rhs => rw [← List.take_append_drop k p]
  rw [charsVal_append]

lemma parseSign_no_sign (l : List Char) (h : ∀ c ∈ l, c.isDigit = true ∨ c = '.') :
    parseSign l = (false, l) := by
  cases l with
  | nil => rfl
  | cons c rest =>
    have hc := h c (List.mem_cons_self _ _)
    have hne : ¬ c = '-' := by
      rcases hc with h1 | h1
      · intro he; subst he; exact absurd h1 (by decide)
      · intro he; subst he; exact absurd h1 (by decide)
    simp [parseSign, hne]

lemma parseBody_of_shape (W F : List Char) (d : Nat)
    (hWne : W ≠ []) (hWdig : ∀ c ∈ W, c.isDigit = true)
    (hFdig : ∀ c ∈ F, c.isDigit = true) (hFlen : F.length ≤ d) :
    parseBody (W ++ '.' :: F) d
      = some (charsVal (W ++ (F ++ List.replicate (d - F.length) '0'))) := by
  have hFP : (F ++ List.replicate (d - F.length) '0').length = d := by
    rw [List.length_append, List.length_replicate]; omega
  have hsplit := takeWhile_append_of_all W ('.' :: F) hWdig
  have hdotd : Char.isDigit '.' = false := by decide
  have hdot1 : ('.' :: F).takeWhile Char.isDigit = [] := by
    simp [List.takeWhile_cons, hdotd]
  have hdot2 : ('.' :: F).dropWhile Char.isDigit = '.' :: F := by
    simp [List.dropWhile_cons, hdotd]
  have htake : (W ++ '.' :: F).takeWhile Char.isDigit = W := by
    rw [hsplit.1, hdot1, List.append_nil]
  have hdrop : (W ++ '.' :: F).dropWhile Char.isDigit = '.' :: F := by
    rw [hsplit.2, hdot2]
  have hfall : F.all Char.isDigit = true := List.all_eq_true.mpr hFdig
  have hfr : parseFrac? ('.' :: F) = some F := by
    simp [parseFrac?, hfall]
  have hne0 : ¬ (W.length + F.length = 0) := by
    have := List.length_pos.mpr hWne; omega
  have hdropnil : (F ++ List.replicate (d - F.length) '0').drop d = [] := by
    apply List.drop_eq_nil_of_le
    rw [hFP]
  have htaked : (F ++ List.replicate (d - F.length) '0').take d
      = F ++ List.replicate (d - F.length) '0' := by
    apply List.take_of_length_le
    rw [hFP]
  unfold parseBody
  rw [hdrop, hfr, Option.some_bind, htake, if_neg hne0, hdropnil, htaked]
  simp

lemma parseBody_formatUnitsCore (a d : Nat) :
    parseBody (formatUnitsCore a d) d = some a := by
  by_cases hd : d = 0
  · subst hd
    have hdig := natToDigitChars_digits a
    have hne := natToDigitChars_ne_nil a
    have htw := takeWhile_of_all (natToDigitChars a) hdig
    have hcore : formatUnitsCore a 0 = natToDigitChars a := by
      unfold formatUnitsCore; rw [if_pos rfl]
    have hne0 : ¬ ((natToDigitChars a).length + List.length ([] : List Char) = 0) := by
      have h1 := List.length_pos.mpr hne
      intro h0
      rw [List.length_nil] at h0
      omega
    rw [hcore]
    unfold parseBody
    rw [htw.2, htw.1]
    rw [show parseFrac? ([] : List Char) = some [] from rfl, Option.some_bind, if_neg hne0]
    simp [charsVal_natToDigitChars]
  · have hplen : d + 1 ≤ (padded a d).length := padded_length a d
    have htklen : ((padded a d).take ((padded a d).length - d)).length
        = (padded a d).length - d := by
      rw [List.length_take]; omega
    have htkne : (padded a d).take ((padded a d).length - d) ≠ [] := by
      intro h0; rw [h0] at htklen; simp at htklen; omega
    have hWne := trimLeadingZeros_ne_nil _ htkne
    have hWdig : ∀ c ∈ trimLeadingZeros ((padded a d).take ((padded a d).length - d)),
        c.isDigit = true :=
      fun c hc => padded_digits a d c (mem_of_mem_take (trimLeadingZeros_mem _ c hc))
    have hdplen : ((padded a d).drop ((padded a d).length - d)).length = d := by
      rw [List.length_drop]; omega
    have hdpne : (padded a d).drop ((padded a d).length - d) ≠ [] := by
      intro h0; rw [h0] at hdplen; simp at hdplen; omega
    have hFdig := trimFrac_digits ((padded a d).drop ((padded a d).length - d))
      (fun c hc => padded_digits a d c (mem_of_mem_drop hc))
    have hFlen : (trimFrac ((padded a d).drop ((padded a d).length - d))).length ≤ d := by
      have := trimFrac_length_le _ hdpne; omega
    have hFpad : trimFrac ((padded a d).drop ((padded a d).length - d))
        ++ List.replicate
            (d - (trimFrac ((padded a d).drop ((padded a d).length - d))).length) '0'
        = (padded a d).drop ((padded a d).length - d) := by
      have h2 := trimFrac_pad _ hdpne
      rw [hdplen] at h2
      exact h2
    have hcore : formatUnitsCore a d
        = trimLeadingZeros ((padded a d).take ((padded a d).length - d))
          ++ '.' :: trimFrac ((padded a d).drop ((padded a d).length - d)) := by
      unfold formatUnitsCore; rw [if_neg hd]
    rw [hcore, parseBody_of_shape _ _ _ hWne hWdig hFdig hFlen, hFpad]
    congr 1
    rw [charsVal_append, hdplen, trimLeadingZeros_charsVal]
    have h3 := charsVal_take_drop (padded a d) ((padded a d).length - d)
    rw [hdplen] at h3
    rw [h3, charsVal_padded]

lemma formatUnitsCore_chars (a d : Nat) :
    ∀ c ∈ formatUnitsCore a d, c.isDigit = true ∨ c = '.' := by
  intro c hc
  by_cases hd : d = 0
  · subst hd
    rw [show formatUnitsCore a 0 = natToDigitChars a from by
      unfold formatUnitsCore; rw [if_pos rfl]] at hc
    exact Or.inl (natToDigitChars_digits a c hc)
  · rw [show formatUnitsCore a d
        = trimLeadingZeros ((padded a d).take ((padded a d).length - d))
          ++ '.' :: trimFrac ((padded a d).drop ((padded a d).length - d)) from by
      unfold formatUnitsCore; rw [if_neg hd]] at hc
    rcases List.mem_append.mp hc with h | h
    · exact Or.inl (padded_digits a d c (mem_of_mem_take (trimLeadingZeros_mem _ c h)))
    · rcases List.mem_cons.mp h with h1 | h1
      · exact Or.inr h1
      · exact Or.inl (trimFrac_digits ((padded a d).drop ((padded a d).length - d))
          (fun x hx => padded_digits a d x (mem_of_mem_drop hx)) c h1)

lemma parseUnitsChars_formatUnitsChars (v : Int) (d : Nat) :
    parseUnitsChars (formatUnitsChars v d) d = some v := by
  unfold formatUnitsChars parseUnitsChars
  by_cases hv : v < 0
  · rw [if_pos hv]
    have hsign : parseSign (['-'] ++ formatUnitsCore v.natAbs d)
        = (true, formatUnitsCore v.natAbs d) := by
      simp [parseSign]
    rw [hsign, parseBody_formatUnitsCore, Option.map_some']
    congr 1
    rw [if_pos rfl]
    omega
  · rw [if_neg hv, List.nil_append]
    rw [parseSign_no_sign _ (formatUnitsCore_chars v.natAbs d),
      parseBody_formatUnitsCore, Option.map_some']
    congr 1
    rw [if_neg (by simp)]
    omega

/-! ### Observations on event traces -/

/-- Whether an event is a submitted transaction. -/
def isSubmit : Event → Bool
  | .submitTx _ _ _ _ => true
  | _ => false

/-- The submitted transactions of a trace. -/
def submittedTxs (tr : List Event) : List Event := tr.filter isSubmit

/-- Whether an event is an allowance read. -/
def isAllowanceRead : Event → Bool
  | .readAllowance _ _ => true
  | _ => false

/-- Whether an event is a token-balance read. -/
def isBalanceRead : Event → Bool
  | .readBalanceOf _ => true
  | _ => false

/-- ERC20 semantics of the submitted transactions with respect to the
allowance: an `approve(spender, amount)` call sets the allowance to `amount`;
no other event touches it. -/
def allowanceAfter (al : Nat) (tr : List Event) : Nat :=
  tr.foldl (fun al e =>
    match e with
    | .submitTx mth a _ _ => if mth = "approve" then (decStr? (a.getD 1 "")).getD al else al
    | _ => al) al

/-- Every submitted transaction in `tr` under method `mth` carries the
20%-buffered gas limit derived from `est` by BigInt (floor) division. -/
def submitsWithBufferedGas (tr : List Event) (mth : String) (est : Nat) : Prop :=
  ∀ a gl gp, Event.submitTx mth a gl gp ∈ tr → gl = est * 120 / 100

/-- A concrete stub environment used by the witness theorems. -/
def envW : Env :=
  { contractAddress := "0xmarket", tokenAddress := "0xtoken",
    ethBalance := 100, decimals := 2, symbol := "TOK", name := "Token",
    balanceOf := 50, allowance := 5,
    approveGasEstimate := 10, buyGasEstimate := 20, sellGasEstimate := 30,
    claimGasEstimate := 40, gasPrice := 7, userShares := none }

/-- A concrete stub environment with a unit gas estimate and an empty
allowance, used by the gas-limit counterexample. -/
def envCx : Env :=
  { envW with allowance := 0, approveGasEstimate := 1 }

/-! ### Claims -/

/-- C1: for every required amount `r` and current allowance `a`,
`checkAndApprove` submits an approval transaction iff `a < r`; when `a ≥ r`
it submits no transaction, reports sufficiency, and leaves the allowance
untouched. -/
theorem C1_checkAndApprove_iff (env : Env) (sp : String) (amt : Nat) (u : String) :
    (submittedTxs (checkAndApprove env sp amt u).events ≠ [] ↔ env.allowance < amt)
    ∧ (amt ≤ env.allowance →
        (checkAndApprove env sp amt u).events = [Event.readAllowance u sp]
        ∧ (checkAndApprove env sp amt u).reportedSufficient = true
        ∧ allowanceAfter env.allowance (checkAndApprove env sp amt u).events
            = env.allowance) := by
  by_cases h : env.allowance < amt
  · refine ⟨?_, fun h2 => absurd h (by omega)⟩
    simp [checkAndApprove, h, submittedTxs, isSubmit]
  · refine ⟨?_, fun h2 => ?_⟩
    · simp [checkAndApprove, h, submittedTxs, isSubmit]
    · refine ⟨?_, ?_, ?_⟩ <;> simp [checkAndApprove, h, allowanceAfter]

/-- Witness for C1 at a concrete environment with sufficient allowance. -/
theorem C1_checkAndApprove_iff_witness :
    (checkAndApprove envW "0xmarket" 3 "owner").events
        = [Event.readAllowance "owner" "0xmarket"]
      ∧ allowanceAfter envW.allowance (checkAndApprove envW "0xmarket" 3 "owner").events
        = envW.allowance :=
  ⟨((C1_checkAndApprove_iff envW "0xmarket" 3 "owner").2 (by decide)).1,
   ((C1_checkAndApprove_iff envW "0xmarket" 3 "owner").2 (by decide)).2.2⟩

/-- C2: `executeBuy` fails with the insufficient-balance error, after only the
balance read — before the allowance check, any gas estimation, or any
submission — whenever the signer's balance is below the value; when the
balance is at least the value (equality included) the flow proceeds to the
allowance check and succeeds. -/
theorem C2_executeBuy_balance (env : Env) (m o value minS user : String) (v : Nat)
    (hv : decStr? value = some v) :
    (env.balanceOf < v →
        (executeBuy env m o value minS user).error
            = some (insufficientMsg env.symbol v env.balanceOf env.decimals)
        ∧ (executeBuy env m o value minS user).events = [Event.readBalanceOf user])
    ∧ (v ≤ env.balanceOf →
        (executeBuy env m o value minS user).error = none
        ∧ Event.readAllowance user env.contractAddress
            ∈ (executeBuy env m o value minS user).events) := by
  constructor
  · intro h
    constructor <;> simp [executeBuy, hv, h]
  · intro h
    have h2 : ¬ env.balanceOf < v := by omega
    refine ⟨by simp [executeBuy, hv, h2], ?_⟩
    by_cases h3 : env.allowance < v <;>
      simp [executeBuy, hv, h2, checkAndApprove, h3]

/-- Witness for C2: balance 50 below value 60 fails fast after only the
balance read. -/
theorem C2_executeBuy_balance_witness :
    (executeBuy envW "1" "0" "60" "0" "owner").error
        = some (insufficientMsg "TOK" 60 50 2)
      ∧ (executeBuy envW "1" "0" "60" "0" "owner").events
        = [Event.readBalanceOf "owner"] :=
  (C2_executeBuy_balance envW "1" "0" "60" "0" "owner" 60 (by decide)).1 (by decide)

/-- C3 fails on the code: the gas limit is computed as `estimate * 120 / 100`
with BigInt (floor) division; with an estimate of 1 the submitted gas limit
is 1, while `ceil(1 * 1.2) = (1 * 120 + 99) / 100 = 2`. -/
theorem C3_gasLimit_counterexample :
    (checkAndApprove envCx "0xmarket" 1 "owner").events
      = [Event.readAllowance "owner" "0xmarket",
         Event.estimateGas "approve" ["0xmarket", "1"],
         Event.getFeeData,
         Event.submitTx "approve" ["0xmarket", "1"] 1 7,
         Event.waitConfirm]
    ∧ (1 * 120 + 99) / 100 = 2 := by decide

/-- C3 (amended): every submitted transaction carries gas limit
`estimate * 120 / 100` (integer floor division, i.e. `floor(estimate * 1.2)`),
for the estimate previously obtained for that call; this is the ceiling only
when the estimate is a multiple of 5. -/
theorem C3_gasLimit_floor (env : Env) (sp u m o value minS maxS : String) (amt : Nat) :
    submitsWithBufferedGas (checkAndApprove env sp amt u).events "approve"
      env.approveGasEstimate
    ∧ submitsWithBufferedGas (executeBuy env m o value minS u).events "approve"
        env.approveGasEstimate
    ∧ submitsWithBufferedGas (executeBuy env m o value minS u).events "buy"
        env.buyGasEstimate
    ∧ submitsWithBufferedGas (executeSell env m o value maxS).events "sell"
        env.sellGasEstimate
    ∧ submitsWithBufferedGas (executeClaimWinnings env m).events "claimWinnings"
        env.claimGasEstimate := by
  refine ⟨?_, ?_, ?_, ?_, ?_⟩ <;> intro a gl gp hmem
  · by_cases h : env.allowance < amt <;> simp [checkAndApprove, h] at hmem
    omega
  · cases hd : decStr? value with
    | none => simp [executeBuy, hd] at hmem
    | some v =>
      by_cases h2 : env.balanceOf < v
      · simp [executeBuy, hd, h2] at hmem
      · by_cases h3 : env.allowance < v <;>
          simp [executeBuy, hd, h2, checkAndApprove, h3] at hmem <;> omega
  · cases hd : decStr? value with
    | none => simp [executeBuy, hd] at hmem
    | some v =>
      by_cases h2 : env.balanceOf < v
      · simp [executeBuy, hd, h2] at hmem
      · by_cases h3 : env.allowance < v <;>
          simp [executeBuy, hd, h2, checkAndApprove, h3] at hmem <;> omega
  · cases hd : decStr? value with
    | none => simp [executeSell, hd] at hmem
    | some v =>
      simp [executeSell, hd] at hmem
      omega
  · simp [executeClaimWinnings] at hmem
    omega

/-- Witness for the amended C3: with estimate 10 the submitted gas limit is
12 = 10 * 120 / 100. -/
theorem C3_gasLimit_floor_witness :
    submitsWithBufferedGas (checkAndApprove envW "0xmarket" 8 "owner").events "approve"
      envW.approveGasEstimate
    ∧ Event.submitTx "approve" ["0xmarket", "8"] 12 7
        ∈ (checkAndApprove envW "0xmarket" 8 "owner").events :=
  ⟨(C3_gasLimit_floor envW "0xmarket" "owner" "1" "0" "5" "0" "max" 8).1, by decide⟩

/-- C4: for every decimal count `d` in `[0, 18]` and every base-unit integer
`v`, parsing the formatted string round-trips:
`parseTokenAmount (formatTokenAmount v d) d = some v`. -/
theorem C4_roundtrip (d : Nat) (hd : d ≤ 18) (v : Int) :
    parseTokenAmount (formatTokenAmount v d) d = some v := by
  unfold parseTokenAmount formatTokenAmount
  exact parseUnitsChars_formatUnitsChars v d

/-- Witness for C4 at `d = 2`, `v = -1234`. -/
theorem C4_roundtrip_witness :
    (2 : Nat) ≤ 18 ∧ parseTokenAmount (formatTokenAmount (-1234) 2) 2 = some (-1234) :=
  ⟨by decide, C4_roundtrip 2 (by decide) (-1234)⟩

/-- C5 fails on the code: `claimWinnings` accepts extra positional parameters
beyond the first (the parser only checks `args.length < 3`), so "exactly 1,
neither fewer nor more" does not hold. -/
theorem C5_claimWinnings_extra_accepted :
    parseArguments ["claimWinnings", "0xkey", "7", "extra"]
      = Except.ok { action := "claimWinnings", privateKey := "0xkey",
                    marketId := some "7" } := by rfl

/-- C5 (amended): `buy` and `sell` with fewer than 3 positional parameters
after the private key exit non-zero; `claimWinnings` requires at least 1
positional parameter after the private key — fewer exits non-zero, while
additional trailing parameters are accepted and ignored. -/
theorem C5_arity (args : List String) :
    ((args[0]?.getD "" = "buy" ∨ args[0]?.getD "" = "sell") → args.length < 5 →
        parseArguments args = Except.error 1)
    ∧ (args[0]?.getD "" = "claimWinnings" →
        ((∃ r, parseArguments args = Except.ok r) ↔ 3 ≤ args.length)) := by
  constructor
  · intro ha hlen
    by_cases h2 : args.length < 2
    · simp [parseArguments, h2]
    · rcases ha with ha | ha <;> simp [parseArguments, h2, ha, hlen]
  · intro ha
    constructor
    · rintro ⟨r, hr⟩
      by_contra h3
      push_neg at h3
      by_cases h2 : args.length < 2
      · simp [parseArguments, h2] at hr
      · simp [parseArguments, h2, ha, h3] at hr
    · intro h3
      have h2 : ¬ args.length < 2 := by omega
      have h4 : ¬ args.length < 3 := by omega
      exact ⟨{ action := "claimWinnings", privateKey := args[1]?.getD "",
               marketId := args[2]? },
             by simp [parseArguments, h2, ha, h4]⟩

/-- Witness for the amended C5 at concrete argument vectors. -/
theorem C5_arity_witness :
    parseArguments ["buy", "0xkey", "1"] = Except.error 1
      ∧ (∃ r, parseArguments ["claimWinnings", "0xkey", "1"] = Except.ok r) :=
  ⟨(C5_arity ["buy", "0xkey", "1"]).1 (Or.inl rfl) (by decide),
   ((C5_arity ["claimWinnings", "0xkey", "1"]).2 rfl).mpr (by decide)⟩

/-- C6: a valid `buy` that omits `minShares` parses it as `"0"`; a valid
`sell` that omits `maxShares` parses it as the decimal string of the maximum
unsigned 256-bit value `2 ^ 256 - 1`. -/
theorem C6_defaults (pk m o v : String) :
    parseArguments ["buy", pk, m, o, v]
        = Except.ok { action := "buy", privateKey := pk, marketId := some m,
                      outcomeId := some o, value := some v, minShares := some "0" }
    ∧ parseArguments ["sell", pk, m, o, v]
        = Except.ok { action := "sell", privateKey := pk, marketId := some m,
                      outcomeId := some o, value := some v,
                      maxShares := some (natToStr MaxUint256) }
    ∧ decStr? (natToStr MaxUint256) = some (2 ^ 256 - 1) := by
  refine ⟨?_, ?_, ?_⟩
  · simp [parseArguments, jsOr]
  · simp [parseArguments, jsOr]
  · rw [decStr?_natToStr]
    rfl

/-- C7: when the position read fails, `getUserShares` returns `none` rather
than throwing, and a run whose action succeeds still completes, prints the
final success message, and exits with code 0. -/
theorem C7_sharesFailure_nonfatal (env : Env) (argv : List String)
    (args : ParsedArguments)
    (hp : parseArguments argv = Except.ok args)
    (hs : env.userShares = none)
    (ha : (runAction env args (addrOf args.privateKey)).error = none) :
    (∀ m u, (getUserShares env m u).1 = none)
    ∧ (main env argv).exitCode = 0 ∧ (main env argv).success = true := by
  refine ⟨fun m u => by simp [getUserShares, hs], ?_, ?_⟩ <;>
    simp [main, hp, ha]

/-- Witness for C7: a `claimWinnings` run against an environment whose
position read fails. -/
theorem C7_sharesFailure_nonfatal_witness :
    (getUserShares envW "1" "owner").1 = none
      ∧ (main envW ["claimWinnings", "0xkey", "1"]).exitCode = 0
      ∧ (main envW ["claimWinnings", "0xkey", "1"]).success = true := by
  have h := C7_sharesFailure_nonfatal envW ["claimWinnings", "0xkey", "1"]
    { action := "claimWinnings", privateKey := "0xkey", marketId := some "1" }
    (by rfl) (by rfl) (by rfl)
  exact ⟨h.1 "1" "owner", h.2.1, h.2.2⟩

/-- C8: `executeSell` performs no balance read and no allowance read, and
invokes `sell(marketId, outcomeId, value, maxShares)` with `value` third and
`maxShares` fourth; `executeBuy` instead submits
`buy(marketId, outcomeId, minShares, value)` with `minShares` before `value`. -/
theorem C8_sell_shape (env : Env) (m o value maxS minS user : String) (v : Nat)
    (hv : decStr? value = some v) :
    (executeSell env m o value maxS).events
        = [Event.estimateGas "sell" [m, o, value, maxS], Event.getFeeData,
           Event.submitTx "sell" [m, o, value, maxS]
             (env.sellGasEstimate * 120 / 100) env.gasPrice,
           Event.waitConfirm]
    ∧ (∀ e ∈ (executeSell env m o value maxS).events,
        isBalanceRead e = false ∧ isAllowanceRead e = false)
    ∧ (v ≤ env.balanceOf →
        Event.submitTx "buy" [m, o, minS, value]
            (env.buyGasEstimate * 120 / 100) env.gasPrice
          ∈ (executeBuy env m o value minS user).events) := by
  refine ⟨by simp [executeSell, hv], ?_, ?_⟩
  · intro e he
    simp [executeSell, hv] at he
    rcases he with h | h | h | h <;> subst h <;> exact ⟨rfl, rfl⟩
  · intro h
    have h2 : ¬ env.balanceOf < v := by omega
    by_cases h3 : env.allowance < v <;>
      simp [executeBuy, hv, h2, checkAndApprove, h3]

/-- Witness for C8 at a concrete environment and arguments. -/
theorem C8_sell_shape_witness :
    (executeSell envW "1" "0" "40" "999").events
        = [Event.estimateGas "sell" ["1", "0", "40", "999"], Event.getFeeData,
           Event.submitTx "sell" ["1", "0", "40", "999"] 36 7, Event.waitConfirm]
      ∧ Event.submitTx "buy" ["1", "0", "0", "40"] 24 7
          ∈ (executeBuy envW "1" "0" "40" "0" "owner").events := by
  have h := C8_sell_shape envW "1" "0" "40" "999" "0" "owner" 40 (by decide)
  exact ⟨h.1, h.2.2 (by decide)⟩

/-- C9: an argument vector whose action keyword is not `buy`, `sell`, or
`claimWinnings` exits non-zero during argument parsing, before any network
connection, contract binding, or RPC call. -/
theorem C9_unknownAction (env : Env) (a : String) (rest : List String)
    (h1 : a ≠ "buy") (h2 : a ≠ "sell") (h3 : a ≠ "claimWinnings") :
    (main env (a :: rest)).exitCode ≠ 0 ∧ (main env (a :: rest)).events = [] := by
  have hp : parseArguments (a :: rest) = Except.error 1 := by
    by_cases hl : (a :: rest).length < 2
    · unfold parseArguments
      rw [if_pos hl]
    · unfold parseArguments
      rw [if_neg hl]
      simp [h1, h2, h3]
  constructor <;> simp [main, hp]

/-- Witness for C9 with action keyword `transfer`. -/
theorem C9_unknownAction_witness :
    (main envW ["transfer", "0xkey", "1"]).exitCode ≠ 0
      ∧ (main envW ["transfer", "0xkey", "1"]).events = [] :=
  C9_unknownAction envW "transfer" ["0xkey", "1"] (by decide) (by decide) (by decide)

lemma parseArguments_take6 (args : List String) (h : 6 ≤ args.length) :
    parseArguments args = parseArguments (args.take 6) := by
  have hlen : (args.take 6).length = 6 := by
    rw [List.length_take]; omega
  have g0 : (args.take 6)[0]? = args[0]? := List.getElem?_take_of_lt (by omega)
  have g1 : (args.take 6)[1]? = args[1]? := List.getElem?_take_of_lt (by omega)
  have g2 : (args.take 6)[2]? = args[2]? := List.getElem?_take_of_lt (by omega)
  have g3 : (args.take 6)[3]? = args[3]? := List.getElem?_take_of_lt (by omega)
  have g4 : (args.take 6)[4]? = args[4]? := List.getElem?_take_of_lt (by omega)
  have g5 : (args.take 6)[5]? = args[5]? := List.getElem?_take_of_lt (by omega)
  have c2 : (args.length < 2) = False := eq_false (by omega)
  have c3 : (args.length < 3) = False := eq_false (by omega)
  have c5 : (args.length < 5) = False := eq_false (by omega)
  have d2 : ((args.take 6).length < 2) = False := by rw [hlen]; exact eq_false (by omega)
  have d3 : ((args.take 6).length < 3) = False := by rw [hlen]; exact eq_false (by omega)
  have d5 : ((args.take 6).length < 5) = False := by rw [hlen]; exact eq_false (by omega)
  unfold parseArguments
  simp only [c2, c3, c5, d2, d3, d5, if_false, g0, g1, g2, g3, g4, g5]

/-- C10: for `buy` and `sell`, positional arguments beyond the sixth element
of the argument vector are silently ignored: vectors agreeing on their first
six elements (action, private key, marketId, outcomeId, value, shares bound)
parse identically and drive identical runs. -/
theorem C10_trailing_ignored (env : Env) (args1 args2 : List String)
    (h1 : 6 ≤ args1.length) (h2 : 6 ≤ args2.length)
    (heq : args1.take 6 = args2.take 6)
    (hact : args1[0]?.getD "" = "buy" ∨ args1[0]?.getD "" = "sell") :
    parseArguments args1 = parseArguments args2 ∧ main env args1 = main env args2 := by
  have hp : parseArguments args1 = parseArguments args2 := by
    rw [parseArguments_take6 args1 h1, parseArguments_take6 args2 h2, heq]
  refine ⟨hp, ?_⟩
  unfold main
  rw [hp]

/-- Witness for C10: two `buy` vectors differing only after the sixth
element. -/
theorem C10_trailing_ignored_witness :
    parseArguments ["buy", "0xkey", "1", "0", "40", "2"]
        = parseArguments ["buy", "0xkey", "1", "0", "40", "2", "junk1", "junk2"]
      ∧ main envW ["buy", "0xkey", "1", "0", "40", "2"]
        = main envW ["buy", "0xkey", "1", "0", "40", "2", "junk1", "junk2"] :=
  C10_trailing_ignored envW ["buy", "0xkey", "1", "0", "40", "2"]
    ["buy", "0xkey", "1", "0", "40", "2", "junk1", "junk2"]
    (by decide) (by decide) (by decide) (Or.inl (by decide))

end Polkamarkets
